import Mathlib

/-!
Verification of the graceful-exit protocol slice of a decentralized
object-storage system.  The satellite side persists per-node transfer
progress counters and a queue of per-piece transfer tasks; the storage-node
side persists a per-satellite exit lifecycle record.  The Go sources declare
the store interfaces (`satellite/gracefulexit/db.go`,
`storagenode/satellites/satellites.go`) and the contact service
(`storagenode/contact/service.go`); the backing store implementations are
modelled from the specification's contracts where noted.

Conventions of the embedding: Go `int64`/`int` become `Int`, byte slices
become `List Nat`, `time.Time` becomes `Nat` where the Go zero value
(meaning "unset") is `0`, and `*time.Time` becomes `Option Nat`.
`float64` fields that no operation computes with are embedded as `Rat`.
Fallible operations return `Except StoreErr`.
-/

/-- Node (and satellite) identifiers, `storj.NodeID` in the source. -/
abbrev NodeID := Nat

/-- Object path (`[]byte` in the source). -/
abbrev PiecePath := List Nat

/-- Instants; `0` plays the role of Go's zero `time.Time` (unset). -/
abbrev Time := Nat

/-- Errors surfaced by the stores: `NotFound` for lookups against absent
state, `InvalidTransition` for illegal exit state-machine moves. -/
inductive StoreErr where
  | notFound
  | invalidTransition
deriving DecidableEq, Repr

namespace gracefulexit

/-- The persisted graceful exit progress record (`Progress` in
`satellite/gracefulexit/db.go`). -/
structure Progress where
  NodeID : NodeID
  BytesTransferred : Int
  PiecesTransferred : Int
  PiecesFailed : Int
  UpdatedAt : Time
deriving DecidableEq, Repr

/-- The persisted graceful exit queue record (`TransferQueueItem` in
`satellite/gracefulexit/db.go`).  `FinishedAt = 0` (the Go zero value)
means the item is incomplete. -/
structure TransferQueueItem where
  NodeID : NodeID
  Path : PiecePath
  PieceNum : Int
  DurabilityRatio : Rat
  QueuedAt : Time
  RequestedAt : Time
  LastFailedAt : Time
  LastFailedCode : Int
  FailedCount : Int
  FinishedAt : Time
deriving DecidableEq, Repr

/-- Modelled from the spec: the satellite-side persistent store behind the
`DB` interface of `satellite/gracefulexit/db.go` (its implementation is not
part of this slice).  Per the abstract schema, `progress` is a table keyed
by `node_id` and `queue` a table keyed by `(node_id, path)`; the queue is
kept as a list in insertion order. -/
structure DBState where
  progress : NodeID → Option Progress
  queue : List TransferQueueItem

/-- The empty store. -/
def DBState.empty : DBState :=
  { progress := fun _ => none, queue := [] }

/-- Does a queue row with key `(n, p)` exist? -/
def hasKey (q : List TransferQueueItem) (n : NodeID) (p : PiecePath) : Bool :=
  q.any (fun i => i.NodeID = n && i.Path = p)

/-- Modelled from the spec: `IncrementProgress` atomically adds the three
deltas to the node's running totals, creating the record on the first call
(the `DB` implementation is not part of this slice). -/
def IncrementProgress (st : DBState) (nodeID : NodeID)
    (bytes successfulTransfers failedTransfers : Int) (now : Time) : DBState :=
  match st.progress nodeID with
  | some p =>
    { st with progress := fun m =>
        if m = nodeID then
          some { p with
                 BytesTransferred := p.BytesTransferred + bytes,
                 PiecesTransferred := p.PiecesTransferred + successfulTransfers,
                 PiecesFailed := p.PiecesFailed + failedTransfers,
                 UpdatedAt := now }
        else st.progress m }
  | none =>
    { st with progress := fun m =>
        if m = nodeID then
          some { NodeID := nodeID,
                 BytesTransferred := bytes,
                 PiecesTransferred := successfulTransfers,
                 PiecesFailed := failedTransfers,
                 UpdatedAt := now }
        else st.progress m }

/-- Modelled from the spec: `GetProgress` returns the node's current
totals and fails with NotFound if the node has no progress record yet. -/
def GetProgress (st : DBState) (nodeID : NodeID) : Except StoreErr Progress :=
  match st.progress nodeID with
  | some p => .ok p
  | none => .error .notFound

/-- Inserting one item if its `(NodeID, Path)` key is absent. -/
def enqueueOne (q : List TransferQueueItem) (it : TransferQueueItem) :
    List TransferQueueItem :=
  if hasKey q it.NodeID it.Path then q else q ++ [it]

/-- Modelled from the spec: `Enqueue` idempotently inserts a batch of queue
items; items whose `(NodeID, Path)` key already exists are left untouched
(the `DB` implementation is not part of this slice). -/
def Enqueue (st : DBState) (items : List TransferQueueItem) : DBState :=
  { st with queue := items.foldl enqueueOne st.queue }

/-- Modelled from the spec: `GetTransferQueueItem` is a point lookup by
`(NodeID, Path)`; it fails with NotFound if absent. -/
def GetTransferQueueItem (st : DBState) (n : NodeID) (p : PiecePath) :
    Except StoreErr TransferQueueItem :=
  match st.queue.find? (fun i => i.NodeID = n && i.Path = p) with
  | some i => .ok i
  | none => .error .notFound

/-- Modelled from the spec: `UpdateTransferQueueItem` is a full-row update
keyed by `(NodeID, Path)`; it fails with NotFound if the row no longer
exists. -/
def UpdateTransferQueueItem (st : DBState) (item : TransferQueueItem) :
    Except StoreErr DBState :=
  if hasKey st.queue item.NodeID item.Path then
    .ok { st with queue :=
      st.queue.map (fun i =>
        if i.NodeID = item.NodeID && i.Path = item.Path then item else i) }
  else .error .notFound

/-- Modelled from the spec: `DeleteTransferQueueItem` removes the row with
the given `(NodeID, Path)` key. -/
def DeleteTransferQueueItem (st : DBState) (n : NodeID) (p : PiecePath) :
    DBState :=
  { st with queue := st.queue.filter (fun i => !(i.NodeID = n && i.Path = p)) }

/-- Modelled from the spec: `DeleteTransferQueueItems` removes all rows of
one node, regardless of finished state. -/
def DeleteTransferQueueItems (st : DBState) (n : NodeID) : DBState :=
  { st with queue := st.queue.filter (fun i => !(i.NodeID = n : Bool)) }

/-- Modelled from the spec: `DeleteFinishedTransferQueueItems` removes only
the rows of one node whose `FinishedAt` is set. -/
def DeleteFinishedTransferQueueItems (st : DBState) (n : NodeID) : DBState :=
  { st with queue := st.queue.filter (fun i => !(i.NodeID = n && i.FinishedAt ≠ 0)) }

/-- Ordering of queue items by queueing instant. -/
def queuedLE (a b : TransferQueueItem) : Prop :=
  a.QueuedAt ≤ b.QueuedAt

instance : DecidableRel queuedLE := fun a b => Nat.decLe a.QueuedAt b.QueuedAt

instance : IsTotal TransferQueueItem queuedLE :=
  ⟨fun a b => Nat.le_total a.QueuedAt b.QueuedAt⟩

instance : IsTrans TransferQueueItem queuedLE :=
  ⟨fun _ _ _ hab hbc => Nat.le_trans hab hbc⟩

/-- Modelled from the spec: `GetIncomplete` returns the node's rows whose
`FinishedAt` is unset, ordered ascending by `QueuedAt`, paginated by
`limit`/`offset`. -/
def GetIncomplete (st : DBState) (n : NodeID) (limit : Nat) (offset : Nat) :
    List TransferQueueItem :=
  ((((st.queue.filter (fun i => i.NodeID = n && i.FinishedAt = 0)).insertionSort
    queuedLE).drop offset).take limit)

/-- The `(NodeID, Path)` key of a queue row. -/
def keyOf (it : TransferQueueItem) : NodeID × PiecePath :=
  (it.NodeID, it.Path)

/-- The queue holds no two rows with the same `(NodeID, Path)` key. -/
def keysNodup (q : List TransferQueueItem) : Prop :=
  (q.map keyOf).Nodup

instance (q : List TransferQueueItem) : Decidable (keysNodup q) :=
  List.nodupDecidable _

/-- One `IncrementProgress` call: the node and the three deltas, plus the
call instant. -/
structure IncCall where
  node : NodeID
  bytes : Int
  transferred : Int
  failed : Int
  now : Time
deriving DecidableEq, Repr

/-- Replaying a sequence of `IncrementProgress` calls against a store. -/
def applyIncrements : DBState → List IncCall → DBState
  | st, [] => st
  | st, c :: cs =>
    applyIncrements (IncrementProgress st c.node c.bytes c.transferred c.failed c.now) cs

/-- The component-wise sum of the deltas a call sequence passes for one
node: `(bytes, piecesTransferred, piecesFailed)`. -/
def sumDeltas : List IncCall → NodeID → Int × Int × Int
  | [], _ => (0, 0, 0)
  | c :: cs, n =>
    if c.node = n then (c.bytes, c.transferred, c.failed) + sumDeltas cs n
    else sumDeltas cs n

/-- The three counters of a node's progress record, if present. -/
def totalsOf (st : DBState) (n : NodeID) : Option (Int × Int × Int) :=
  (st.progress n).map (fun p => (p.BytesTransferred, p.PiecesTransferred, p.PiecesFailed))

/-- The three counters as returned by `GetProgress`. -/
def getTotals (st : DBState) (n : NodeID) : Except StoreErr (Int × Int × Int) :=
  (GetProgress st n).map (fun p => (p.BytesTransferred, p.PiecesTransferred, p.PiecesFailed))

end gracefulexit

namespace satellites

/-- The state of the relationship with a satellite
(`storagenode/satellites/satellites.go`).  In the source this is
`type Status = int`: a bare alias, not a distinct type. -/
abbrev Status := Int

/-- Sentinel status; the Go zero value, "should not be used". -/
def Unexpected : Status := 0

/-- Status reflecting a lack of graceful exit. -/
def Normal : Status := 1

/-- Status reflecting an active graceful exit. -/
def Exiting : Status := 2

/-- Status of a graceful exit that succeeded. -/
def ExitSucceeded : Status := 3

/-- Status of a graceful exit that failed. -/
def ExitFailed : Status := 4

/-- The `ExitProcess` struct exactly as declared in
`storagenode/satellites/satellites.go` (lines 30-37): `SatelliteID`,
`InitiatedAt`, `FinishedAt`, `StartingDiskUsage`, `BytesDeleted`,
`CompletionReceipt` — and no other field. -/
structure ExitProcess where
  SatelliteID : NodeID
  InitiatedAt : Option Time
  FinishedAt : Option Time
  StartingDiskUsage : Int
  BytesDeleted : Int
  CompletionReceipt : List Nat
deriving DecidableEq, Repr

/-- Modelled from the spec: the persisted exit row of the node-side store,
as the data model of the spec describes it — the fields of `ExitProcess`
together with the `Status` column, which the source struct omits.  The
`DB` implementation behind `storagenode/satellites/satellites.go` is not
part of this slice. -/
structure ExitRecord where
  SatelliteID : NodeID
  Status : Status
  InitiatedAt : Option Time
  FinishedAt : Option Time
  StartingDiskUsage : Int
  BytesDeleted : Int
  CompletionReceipt : List Nat
deriving DecidableEq, Repr

/-- Modelled from the spec: the node-side store, one record per satellite
(`exit_process(satellite_id) PRIMARY KEY`). -/
structure NodeDB where
  records : NodeID → Option ExitRecord

/-- The store before any exit: no record for any satellite. -/
def NodeDB.empty : NodeDB :=
  { records := fun _ => none }

/-- The status of the relationship with a satellite; a satellite without a
record has not begun an exit, hence is `Normal`. -/
def statusOf (st : NodeDB) (sat : NodeID) : Status :=
  match st.records sat with
  | some r => r.Status
  | none => Normal

/-- Modelled from the spec: `InitiateGracefulExit` moves a satellite from
`Normal` to `Exiting`, setting `InitiatedAt` and the disk-usage baseline;
it fails if the record is already in a non-`Normal` state. -/
def InitiateGracefulExit (st : NodeDB) (satelliteID : NodeID)
    (initiatedAt : Time) (startingDiskUsage : Int) : Except StoreErr NodeDB :=
  if statusOf st satelliteID = Normal then
    .ok { records := fun x =>
      if x = satelliteID then
        some { SatelliteID := satelliteID,
               Status := Exiting,
               InitiatedAt := some initiatedAt,
               FinishedAt := none,
               StartingDiskUsage := startingDiskUsage,
               BytesDeleted := 0,
               CompletionReceipt := [] }
      else st.records x }
  else .error .invalidTransition

/-- Modelled from the spec: `UpdateGracefulExit` accumulates `BytesDeleted`
while a satellite is `Exiting`; against a satellite with no active exit it
fails with NotFound. -/
def UpdateGracefulExit (st : NodeDB) (satelliteID : NodeID)
    (bytesDeleted : Int) : Except StoreErr NodeDB :=
  match st.records satelliteID with
  | some r =>
    if r.Status = Exiting then
      .ok { records := fun x =>
        if x = satelliteID then
          some { r with BytesDeleted := r.BytesDeleted + bytesDeleted }
        else st.records x }
    else .error .notFound
  | none => .error .notFound

/-- Modelled from the spec: `CompleteGracefulExit` terminally moves an
`Exiting` satellite to `ExitSucceeded` or `ExitFailed`, setting
`FinishedAt` and storing the completion receipt; it fails on a satellite
not currently `Exiting`, and — since `Status` is a bare integer — it
validates the given status itself, rejecting values outside the two
terminal ones. -/
def CompleteGracefulExit (st : NodeDB) (satelliteID : NodeID)
    (finishedAt : Time) (exitStatus : Status) (completionReceipt : List Nat) :
    Except StoreErr NodeDB :=
  match st.records satelliteID with
  | some r =>
    if r.Status = Exiting then
      if exitStatus = ExitSucceeded ∨ exitStatus = ExitFailed then
        .ok { records := fun x =>
          if x = satelliteID then
            some { r with Status := exitStatus,
                          FinishedAt := some finishedAt,
                          CompletionReceipt := completionReceipt }
          else st.records x }
      else .error .invalidTransition
    else .error .invalidTransition
  | none => .error .invalidTransition

end satellites

namespace contact

/-- The node dossier held by the contact service
(`overlay.NodeDossier`, whose declaration is outside this slice): its
`Capacity` field of type `κ` (standing for `pb.NodeCapacity`) together
with every other field, abstracted as `ρ`. -/
structure NodeDossier (κ ρ : Type) where
  Capacity : κ
  Rest : ρ
deriving DecidableEq, Repr

/-- The contact service between storage nodes and satellites
(`storagenode/contact/service.go`); it owns the local node dossier. -/
structure Service (κ ρ : Type) where
  self : NodeDossier κ ρ
deriving DecidableEq, Repr

/-- `Local` returns the storagenode node-dossier: the dereferenced value
of the owned dossier (a copy, in Go). -/
def Service.Local {κ ρ : Type} (service : Service κ ρ) : NodeDossier κ ρ :=
  service.self

/-- `UpdateSelf` updates the local node with the capacity: with a `nil`
capacity it does nothing, otherwise it assigns only the `Capacity`
field. -/
def Service.UpdateSelf {κ ρ : Type} (service : Service κ ρ)
    (capacity : Option κ) : Service κ ρ :=
  match capacity with
  | some c => { service with self := { service.self with Capacity := c } }
  | none => service

end contact

namespace gracefulexit

theorem totalsOf_inc_self_some {st : DBState} {n : NodeID} {x : Int × Int × Int}
    (b t f : Int) (now : Time) (h : totalsOf st n = some x) :
    totalsOf (IncrementProgress st n b t f now) n = some (x + (b, t, f)) := by
  rcases hp : st.progress n with _ | p
  · simp [totalsOf, hp] at h
  · simp only [totalsOf, hp, Option.map_some', Option.some_inj] at h
    subst h
    simp only [IncrementProgress, totalsOf, hp]
    simp [Prod.mk_add_mk]

theorem totalsOf_inc_self_none {st : DBState} {n : NodeID}
    (b t f : Int) (now : Time) (h : totalsOf st n = none) :
    totalsOf (IncrementProgress st n b t f now) n = some (b, t, f) := by
  rcases hp : st.progress n with _ | p
  · simp [IncrementProgress, totalsOf, hp]
  · simp [totalsOf, hp] at h

theorem totalsOf_inc_other {st : DBState} {m n : NodeID}
    (b t f : Int) (now : Time) (h : m ≠ n) :
    totalsOf (IncrementProgress st n b t f now) m = totalsOf st m := by
  rcases hp : st.progress n with _ | p <;>
    simp [IncrementProgress, totalsOf, hp, h]

theorem totalsOf_applyIncrements_some (calls : List IncCall) :
    ∀ {st : DBState} {n : NodeID} {x : Int × Int × Int},
    totalsOf st n = some x →
    totalsOf (applyIncrements st calls) n = some (x + sumDeltas calls n) := by
  induction calls with
  | nil => intro st n x h; simpa [applyIncrements, sumDeltas] using h
  | cons c cs ih =>
    intro st n x h
    by_cases hc : c.node = n
    · subst hc
      have h1 := totalsOf_inc_self_some c.bytes c.transferred c.failed c.now h
      have h2 := ih h1
      rw [applyIncrements, h2, sumDeltas]
      simp [add_assoc, add_comm (sumDeltas cs c.node)]
    · have h1 : totalsOf (IncrementProgress st c.node c.bytes c.transferred c.failed c.now) n
          = some x := by
        rw [totalsOf_inc_other _ _ _ _ (fun hx => hc hx.symm), h]
      have h2 := ih h1
      rw [applyIncrements, h2, sumDeltas, if_neg hc]

theorem totalsOf_applyIncrements_none {calls : List IncCall} :
    ∀ {st : DBState} {n : NodeID},
    totalsOf st n = none → (∃ c ∈ calls, c.node = n) →
    totalsOf (applyIncrements st calls) n = some (sumDeltas calls n) := by
  induction calls with
  | nil => intro st n _ hex; simp at hex
  | cons c cs ih =>
    intro st n h hex
    by_cases hc : c.node = n
    · subst hc
      have h1 := totalsOf_inc_self_none c.bytes c.transferred c.failed c.now h
      have h2 := totalsOf_applyIncrements_some cs h1
      rw [applyIncrements, h2, sumDeltas, if_pos rfl]
    · have h1 : totalsOf (IncrementProgress st c.node c.bytes c.transferred c.failed c.now) n
          = none := by
        rw [totalsOf_inc_other _ _ _ _ (fun hx => hc hx.symm), h]
      rcases hex with ⟨c', hc', hn⟩
      rcases List.mem_cons.mp hc' with rfl | hmem
      · exact absurd hn hc
      · have h2 := ih h1 ⟨c', hmem, hn⟩
        rw [applyIncrements, h2, sumDeltas, if_neg hc]

theorem getTotals_eq_totalsOf (st : DBState) (n : NodeID) :
    getTotals st n = match totalsOf st n with
      | some x => .ok x
      | none => .error .notFound := by
  rcases hp : st.progress n with _ | p <;>
    simp only [getTotals, GetProgress, totalsOf, hp, Option.map_some', Option.map_none'] <;>
    rfl

theorem sumDeltas_nonneg (calls : List IncCall) (n : NodeID)
    (h : ∀ c ∈ calls, 0 ≤ c.bytes ∧ 0 ≤ c.transferred ∧ 0 ≤ c.failed) :
    (0, 0, 0) ≤ sumDeltas calls n := by
  induction calls with
  | nil => simp [sumDeltas]
  | cons c cs ih =>
    have hc := h c (List.mem_cons_self c cs)
    have hcs := ih (fun c' hc' => h c' (List.mem_cons_of_mem c hc'))
    rw [sumDeltas]
    by_cases hn : c.node = n
    · rw [if_pos hn]
      have : ((0, 0, 0) : Int × Int × Int) + (0, 0, 0) ≤
          (c.bytes, c.transferred, c.failed) + sumDeltas cs n := by
        apply add_le_add _ hcs
        simp [Prod.le_def, hc.1, hc.2.1, hc.2.2]
      simpa using this
    · rw [if_neg hn]; exact hcs

theorem applyIncrements_append (l₁ l₂ : List IncCall) :
    ∀ st : DBState, applyIncrements st (l₁ ++ l₂)
      = applyIncrements (applyIncrements st l₁) l₂ := by
  induction l₁ with
  | nil => intro st; rfl
  | cons c cs ih => intro st; rw [List.cons_append, applyIncrements, applyIncrements, ih]

end gracefulexit

namespace gracefulexit

theorem getTotals_ok_iff {st : DBState} {n : NodeID} {x : Int × Int × Int} :
    getTotals st n = .ok x ↔ totalsOf st n = some x := by
  rw [getTotals_eq_totalsOf]
  cases totalsOf st n <;> simp

end gracefulexit

open gracefulexit satellites contact

/-- C1: for every node and finite sequence of `IncrementProgress` calls
replayed from the empty store, the totals returned by `GetProgress`
afterwards equal the component-wise sum of all deltas passed so far, the
record being created on the first call; with nonnegative deltas (byte and
piece counts) no counter ever decreases under further calls; and the
concrete scenario `IncrementProgress(nodeA, 10, 2, 1)` followed by
`IncrementProgress(nodeA, 1, 1, 1)` yields `GetProgress(nodeA)` with
`BytesTransferred = 11`, `PiecesTransferred = 3`, `PiecesFailed = 2`. -/
theorem C1_progress_totals_are_sum_of_deltas :
    (∀ (calls : List IncCall) (n : NodeID), (∃ c ∈ calls, c.node = n) →
      getTotals (applyIncrements DBState.empty calls) n = .ok (sumDeltas calls n)) ∧
    (∀ (calls₁ calls₂ : List IncCall) (n : NodeID) (t₁ t₂ : Int × Int × Int),
      (∀ c ∈ calls₂, 0 ≤ c.bytes ∧ 0 ≤ c.transferred ∧ 0 ≤ c.failed) →
      getTotals (applyIncrements DBState.empty calls₁) n = .ok t₁ →
      getTotals (applyIncrements DBState.empty (calls₁ ++ calls₂)) n = .ok t₂ →
      t₁ ≤ t₂) ∧
    (∀ (nodeA : NodeID) (t₁ t₂ : Time),
      GetProgress (applyIncrements DBState.empty
        [⟨nodeA, 10, 2, 1, t₁⟩, ⟨nodeA, 1, 1, 1, t₂⟩]) nodeA
        = .ok ⟨nodeA, 11, 3, 2, t₂⟩) := by
  have key : ∀ (calls : List IncCall) (n : NodeID), (∃ c ∈ calls, c.node = n) →
      getTotals (applyIncrements DBState.empty calls) n = .ok (sumDeltas calls n) := by
    intro calls n hex
    have h0 : totalsOf DBState.empty n = none := rfl
    have h := totalsOf_applyIncrements_none h0 hex
    exact getTotals_ok_iff.mpr h
  refine ⟨key, ?_, ?_⟩
  · intro calls₁ calls₂ n t₁ t₂ hnn h₁ h₂
    have ht₁ : totalsOf (applyIncrements DBState.empty calls₁) n = some t₁ :=
      getTotals_ok_iff.mp h₁
    have ht₂ : totalsOf (applyIncrements DBState.empty (calls₁ ++ calls₂)) n = some t₂ :=
      getTotals_ok_iff.mp h₂
    rw [applyIncrements_append] at ht₂
    have hsum := totalsOf_applyIncrements_some calls₂ ht₁
    rw [ht₂] at hsum
    have heq : t₂ = t₁ + sumDeltas calls₂ n := Option.some_injective _ hsum
    rw [heq]
    have hpos := sumDeltas_nonneg calls₂ n hnn
    simpa using add_le_add_left hpos t₁
  · intro nodeA t₁ t₂
    simp only [applyIncrements, IncrementProgress, GetProgress, DBState.empty]
    norm_num

/-- Witness for C1 at a concrete input: one call for node 5, then a second
call; the hypotheses of every clause are discharged at these inputs. -/
theorem C1_progress_totals_are_sum_of_deltas_witness :
    getTotals (applyIncrements DBState.empty [⟨5, 10, 2, 1, 1⟩]) 5
      = .ok (sumDeltas [⟨5, 10, 2, 1, 1⟩] 5) ∧
    ((10, 2, 1) : Int × Int × Int) ≤ (11, 3, 2) ∧
    GetProgress (applyIncrements DBState.empty
      [⟨5, 10, 2, 1, 1⟩, ⟨5, 1, 1, 1, 2⟩]) 5 = .ok ⟨5, 11, 3, 2, 2⟩ :=
  ⟨C1_progress_totals_are_sum_of_deltas.1 [⟨5, 10, 2, 1, 1⟩] 5
      ⟨⟨5, 10, 2, 1, 1⟩, List.mem_cons_self _ _, rfl⟩,
   C1_progress_totals_are_sum_of_deltas.2.1 [⟨5, 10, 2, 1, 1⟩] [⟨5, 1, 1, 1, 2⟩] 5
      (10, 2, 1) (11, 3, 2) (by decide) rfl rfl,
   C1_progress_totals_are_sum_of_deltas.2.2 5 1 2⟩

namespace gracefulexit

theorem mem_map_keyOf_iff_hasKey {q : List TransferQueueItem} {n : NodeID} {p : PiecePath} :
    (n, p) ∈ q.map keyOf ↔ hasKey q n p = true := by
  rw [hasKey, List.any_eq_true]
  constructor
  · intro hmem
    obtain ⟨it, hit, hk⟩ := List.mem_map.mp hmem
    rw [keyOf, Prod.mk.injEq] at hk
    exact ⟨it, hit, by simp [hk.1, hk.2]⟩
  · rintro ⟨it, hit, hk⟩
    rw [Bool.and_eq_true, decide_eq_true_eq, decide_eq_true_eq] at hk
    exact List.mem_map.mpr ⟨it, hit, by rw [keyOf, hk.1, hk.2]⟩

theorem enqueueOne_of_hasKey {q : List TransferQueueItem} {it : TransferQueueItem}
    (h : hasKey q it.NodeID it.Path = true) : enqueueOne q it = q := by
  simp [enqueueOne, h]

theorem enqueueOne_of_not_hasKey {q : List TransferQueueItem} {it : TransferQueueItem}
    (h : ¬hasKey q it.NodeID it.Path = true) : enqueueOne q it = q ++ [it] := by
  rw [enqueueOne, if_neg h]

theorem hasKey_append (q₁ q₂ : List TransferQueueItem) (n : NodeID) (p : PiecePath) :
    hasKey (q₁ ++ q₂) n p = (hasKey q₁ n p || hasKey q₂ n p) :=
  List.any_append

theorem hasKey_enqueueOne_mono {q : List TransferQueueItem} {n : NodeID} {p : PiecePath}
    (it : TransferQueueItem) (h : hasKey q n p = true) :
    hasKey (enqueueOne q it) n p = true := by
  by_cases hk : hasKey q it.NodeID it.Path = true
  · rw [enqueueOne_of_hasKey hk]; exact h
  · rw [enqueueOne_of_not_hasKey hk, hasKey_append, h, Bool.true_or]

theorem hasKey_enqueueOne_self (q : List TransferQueueItem) (it : TransferQueueItem) :
    hasKey (enqueueOne q it) it.NodeID it.Path = true := by
  by_cases hk : hasKey q it.NodeID it.Path = true
  · rw [enqueueOne_of_hasKey hk]; exact hk
  · rw [enqueueOne_of_not_hasKey hk, hasKey_append]
    have : hasKey [it] it.NodeID it.Path = true := by simp [hasKey]
    rw [this, Bool.or_true]

theorem hasKey_foldl_enqueue_mono {I : List TransferQueueItem} :
    ∀ {q : List TransferQueueItem} {n : NodeID} {p : PiecePath},
    hasKey q n p = true → hasKey (I.foldl enqueueOne q) n p = true := by
  induction I with
  | nil => intro q n p h; exact h
  | cons c cs ih => intro q n p h; exact ih (hasKey_enqueueOne_mono c h)

theorem hasKey_foldl_enqueue_of_mem {I : List TransferQueueItem} {it : TransferQueueItem}
    (h : it ∈ I) : ∀ q : List TransferQueueItem,
    hasKey (I.foldl enqueueOne q) it.NodeID it.Path = true := by
  induction I with
  | nil => cases h
  | cons c cs ih =>
    intro q
    rw [List.foldl_cons]
    rcases List.mem_cons.mp h with rfl | hmem
    · exact hasKey_foldl_enqueue_mono (hasKey_enqueueOne_self q it)
    · exact ih hmem (enqueueOne q c)

theorem foldl_enqueue_of_all_hasKey {I q : List TransferQueueItem}
    (h : ∀ it ∈ I, hasKey q it.NodeID it.Path = true) : I.foldl enqueueOne q = q := by
  induction I with
  | nil => rfl
  | cons c cs ih =>
    rw [List.foldl_cons, enqueueOne_of_hasKey (h c (List.mem_cons_self c cs))]
    exact ih (fun it hit => h it (List.mem_cons_of_mem c hit))

theorem exists_foldl_enqueue_append (I : List TransferQueueItem) :
    ∀ q : List TransferQueueItem, ∃ t, I.foldl enqueueOne q = q ++ t := by
  induction I with
  | nil => intro q; exact ⟨[], (List.append_nil q).symm⟩
  | cons c cs ih =>
    intro q
    by_cases hk : hasKey q c.NodeID c.Path = true
    · obtain ⟨t, ht⟩ := ih q
      exact ⟨t, by rw [List.foldl_cons, enqueueOne_of_hasKey hk, ht]⟩
    · obtain ⟨t, ht⟩ := ih (q ++ [c])
      refine ⟨[c] ++ t, ?_⟩
      rw [List.foldl_cons, enqueueOne_of_not_hasKey hk, ht, List.append_assoc]

theorem keysNodup_enqueueOne {q : List TransferQueueItem} (it : TransferQueueItem)
    (h : keysNodup q) : keysNodup (enqueueOne q it) := by
  by_cases hk : hasKey q it.NodeID it.Path = true
  · rw [enqueueOne_of_hasKey hk]; exact h
  · rw [enqueueOne_of_not_hasKey hk]
    have hnotmem : keyOf it ∉ q.map keyOf := fun hmem =>
      hk (mem_map_keyOf_iff_hasKey.mp hmem)
    have hperm : ((q ++ [it]).map keyOf).Perm (keyOf it :: q.map keyOf) := by
      rw [List.map_append, List.map_singleton]
      exact List.perm_append_singleton _ _
    rw [keysNodup, hperm.nodup_iff, List.nodup_cons]
    exact ⟨hnotmem, h⟩

theorem keysNodup_foldl_enqueue {I : List TransferQueueItem} :
    ∀ {q : List TransferQueueItem}, keysNodup q → keysNodup (I.foldl enqueueOne q) := by
  induction I with
  | nil => intro q h; exact h
  | cons c cs ih => intro q h; exact ih (keysNodup_enqueueOne c h)

end gracefulexit

/-- C2: `Enqueue` is idempotent on the `(NodeID, Path)` key.  Repeating an
`Enqueue` with the same batch changes nothing; a key already in the store
is left untouched (a point lookup reads the same row before and after any
`Enqueue`); and `Enqueue` never creates duplicate `(NodeID, Path)`
rows in a store without duplicates. -/
theorem C2_enqueue_idempotent :
    (∀ (st : DBState) (I : List TransferQueueItem),
      Enqueue (Enqueue st I) I = Enqueue st I) ∧
    (∀ (st : DBState) (I : List TransferQueueItem) (n : NodeID) (p : PiecePath),
      hasKey st.queue n p = true →
      GetTransferQueueItem (Enqueue st I) n p = GetTransferQueueItem st n p) ∧
    (∀ (st : DBState) (I : List TransferQueueItem),
      keysNodup st.queue → keysNodup (Enqueue st I).queue) := by
  refine ⟨?_, ?_, ?_⟩
  · intro st I
    show DBState.mk _ _ = DBState.mk _ _
    congr 1
    exact foldl_enqueue_of_all_hasKey
      (fun it hit => hasKey_foldl_enqueue_of_mem hit st.queue)
  · intro st I n p h
    obtain ⟨t, ht⟩ := exists_foldl_enqueue_append I st.queue
    have hsome : (st.queue.find? (fun i => i.NodeID = n && i.Path = p)).isSome := by
      rw [List.find?_isSome]
      simpa [hasKey, List.any_eq_true] using h
    obtain ⟨i, hi⟩ := Option.isSome_iff_exists.mp hsome
    show (match (Enqueue st I).queue.find? (fun i => i.NodeID = n && i.Path = p) with
      | some i => Except.ok i | none => Except.error StoreErr.notFound) = _
    have hq : (Enqueue st I).queue = st.queue ++ t := ht
    rw [GetTransferQueueItem, hq, List.find?_append, hi]
    rfl
  · intro st I h
    exact keysNodup_foldl_enqueue h

/-- Witness for C2 at a concrete input: a store holding one row and a
batch that overlaps it. -/
theorem C2_enqueue_idempotent_witness :
    Enqueue (Enqueue ⟨fun _ => none, [⟨1, [10], 1, 1, 5, 0, 0, 0, 0, 0⟩]⟩
        [⟨1, [10], 2, 1, 6, 0, 0, 0, 0, 0⟩, ⟨1, [11], 3, 1, 7, 0, 0, 0, 0, 0⟩])
        [⟨1, [10], 2, 1, 6, 0, 0, 0, 0, 0⟩, ⟨1, [11], 3, 1, 7, 0, 0, 0, 0, 0⟩]
      = Enqueue ⟨fun _ => none, [⟨1, [10], 1, 1, 5, 0, 0, 0, 0, 0⟩]⟩
        [⟨1, [10], 2, 1, 6, 0, 0, 0, 0, 0⟩, ⟨1, [11], 3, 1, 7, 0, 0, 0, 0, 0⟩] ∧
    hasKey [⟨1, [10], 1, 1, 5, 0, 0, 0, 0, 0⟩] 1 [10] = true ∧
    GetTransferQueueItem (Enqueue ⟨fun _ => none, [⟨1, [10], 1, 1, 5, 0, 0, 0, 0, 0⟩]⟩
        [⟨1, [10], 2, 1, 6, 0, 0, 0, 0, 0⟩, ⟨1, [11], 3, 1, 7, 0, 0, 0, 0, 0⟩]) 1 [10]
      = GetTransferQueueItem ⟨fun _ => none, [⟨1, [10], 1, 1, 5, 0, 0, 0, 0, 0⟩]⟩ 1 [10] ∧
    keysNodup [⟨1, [10], 1, 1, 5, 0, 0, 0, 0, 0⟩] ∧
    keysNodup (Enqueue ⟨fun _ => none, [⟨1, [10], 1, 1, 5, 0, 0, 0, 0, 0⟩]⟩
        [⟨1, [10], 2, 1, 6, 0, 0, 0, 0, 0⟩, ⟨1, [11], 3, 1, 7, 0, 0, 0, 0, 0⟩]).queue :=
  ⟨C2_enqueue_idempotent.1 ⟨fun _ => none, [⟨1, [10], 1, 1, 5, 0, 0, 0, 0, 0⟩]⟩
      [⟨1, [10], 2, 1, 6, 0, 0, 0, 0, 0⟩, ⟨1, [11], 3, 1, 7, 0, 0, 0, 0, 0⟩],
   by decide,
   C2_enqueue_idempotent.2.1 ⟨fun _ => none, [⟨1, [10], 1, 1, 5, 0, 0, 0, 0, 0⟩]⟩
      [⟨1, [10], 2, 1, 6, 0, 0, 0, 0, 0⟩, ⟨1, [11], 3, 1, 7, 0, 0, 0, 0, 0⟩] 1 [10] (by decide),
   by decide,
   C2_enqueue_idempotent.2.2 ⟨fun _ => none, [⟨1, [10], 1, 1, 5, 0, 0, 0, 0, 0⟩]⟩
      [⟨1, [10], 2, 1, 6, 0, 0, 0, 0, 0⟩, ⟨1, [11], 3, 1, 7, 0, 0, 0, 0, 0⟩] (by decide)⟩

namespace gracefulexit

theorem foldl_enqueue_of_fresh {I : List TransferQueueItem} :
    ∀ {q : List TransferQueueItem}, keysNodup I →
    (∀ it ∈ I, hasKey q it.NodeID it.Path = false) →
    I.foldl enqueueOne q = q ++ I := by
  induction I with
  | nil => intro q _ _; exact (List.append_nil q).symm
  | cons c cs ih =>
    intro q hnodup hfresh
    rw [keysNodup, List.map_cons, List.nodup_cons] at hnodup
    have hc : hasKey q c.NodeID c.Path = false := hfresh c (List.mem_cons_self c cs)
    rw [List.foldl_cons, enqueueOne_of_not_hasKey (by simp [hc])]
    have hfresh' : ∀ it ∈ cs, hasKey (q ++ [c]) it.NodeID it.Path = false := by
      intro it hit
      rw [hasKey_append, hfresh it (List.mem_cons_of_mem c hit), Bool.false_or,
        Bool.eq_false_iff]
      intro htrue
      have hkey := mem_map_keyOf_iff_hasKey.mpr htrue
      rw [List.map_singleton, List.mem_singleton] at hkey
      have : keyOf c ∈ cs.map keyOf := by
        rw [← hkey]
        exact List.mem_map.mpr ⟨it, hit, rfl⟩
      exact hnodup.1 this
    rw [ih hnodup.2 hfresh', List.append_assoc, List.singleton_append]

theorem GetIncomplete_after_fresh_enqueue {st : DBState} {I : List TransferQueueItem}
    {n : NodeID} (hI : ∀ it ∈ I, it.NodeID = n ∧ it.FinishedAt = 0)
    (hnodup : keysNodup I) (hst : ∀ j ∈ st.queue, j.NodeID ≠ n) :
    GetIncomplete (Enqueue st I) n I.length 0 = I.insertionSort queuedLE := by
  have hfresh : ∀ it ∈ I, hasKey st.queue it.NodeID it.Path = false := by
    intro it hit
    rw [hasKey, Bool.eq_false_iff]
    intro htrue
    obtain ⟨j, hj, hkey⟩ := List.any_eq_true.mp htrue
    rw [Bool.and_eq_true, decide_eq_true_eq, decide_eq_true_eq] at hkey
    exact hst j hj (hkey.1.trans (hI it hit).1)
  have hq : (Enqueue st I).queue = st.queue ++ I := foldl_enqueue_of_fresh hnodup hfresh
  rw [GetIncomplete, hq, List.filter_append]
  have h1 : st.queue.filter (fun i => i.NodeID = n && i.FinishedAt = 0) = [] := by
    rw [List.filter_eq_nil_iff]
    intro j hj
    simp [hst j hj]
  have h2 : I.filter (fun i => i.NodeID = n && i.FinishedAt = 0) = I := by
    rw [List.filter_eq_self]
    intro it hit
    simp [(hI it hit).1, (hI it hit).2]
  rw [h1, h2, List.nil_append, List.drop_zero,
    ← (List.perm_insertionSort queuedLE I).length_eq]
  exact List.take_length (I.insertionSort queuedLE)

theorem GetIncomplete_sublist_sorted (st : DBState) (n : NodeID) (limit offset : Nat) :
    List.Sublist (GetIncomplete st n limit offset)
      ((st.queue.filter (fun i => i.NodeID = n && i.FinishedAt = 0)).insertionSort
        queuedLE) := by
  rw [GetIncomplete]
  exact (List.take_sublist _ _).trans (List.drop_sublist _ _)

end gracefulexit

/-- C3: `GetIncomplete(nodeID, limit, offset)` returns only the node's
queue rows whose `FinishedAt` is unset, ordered ascending by `QueuedAt`,
and at most `limit` of them; all of them come from the node's incomplete
set; and immediately after an `Enqueue` of a fresh batch `I` for the node
(distinct keys, all unfinished, node previously absent),
`GetIncomplete(nodeID, |I|, 0)` returns exactly the items of `I`, in
`QueuedAt` order. -/
theorem C3_getIncomplete_returns_incomplete_fifo :
    (∀ (st : DBState) (n : NodeID) (limit offset : Nat),
      (GetIncomplete st n limit offset).length ≤ limit ∧
      (∀ it ∈ GetIncomplete st n limit offset, it.NodeID = n ∧ it.FinishedAt = 0) ∧
      (GetIncomplete st n limit offset).Sorted queuedLE) ∧
    (∀ (st : DBState) (n : NodeID),
      (GetIncomplete st n st.queue.length 0).Perm
        (st.queue.filter (fun i => i.NodeID = n && i.FinishedAt = 0))) ∧
    (∀ (st : DBState) (I : List TransferQueueItem) (n : NodeID),
      (∀ it ∈ I, it.NodeID = n ∧ it.FinishedAt = 0) → keysNodup I →
      (∀ j ∈ st.queue, j.NodeID ≠ n) →
      (GetIncomplete (Enqueue st I) n I.length 0).Perm I ∧
      (GetIncomplete (Enqueue st I) n I.length 0).Sorted queuedLE) := by
  refine ⟨?_, ?_, ?_⟩
  · intro st n limit offset
    have hsub := GetIncomplete_sublist_sorted st n limit offset
    refine ⟨?_, ?_, ?_⟩
    · rw [GetIncomplete]; exact List.length_take_le _ _
    · intro it hit
      have hmem := hsub.mem hit
      rw [List.mem_insertionSort] at hmem
      have := List.mem_filter.mp hmem
      rw [Bool.and_eq_true, decide_eq_true_eq, decide_eq_true_eq] at this
      exact this.2
    · exact (List.sorted_insertionSort queuedLE _).sublist hsub
  · intro st n
    rw [GetIncomplete, List.drop_zero]
    have hlen : ((st.queue.filter
        (fun i => i.NodeID = n && i.FinishedAt = 0)).insertionSort queuedLE).length
        ≤ st.queue.length := by
      rw [(List.perm_insertionSort queuedLE _).length_eq]
      exact List.length_filter_le _ _
    rw [List.take_of_length_le hlen]
    exact List.perm_insertionSort queuedLE _
  · intro st I n hI hnodup hst
    rw [GetIncomplete_after_fresh_enqueue hI hnodup hst]
    exact ⟨List.perm_insertionSort queuedLE I, List.sorted_insertionSort queuedLE I⟩

/-- Witness for C3 at a concrete input: two fresh unfinished items for node
1 (queued at instants 5 and 3) enqueued into a store holding only a row of
node 2; the lookup returns both, oldest first. -/
theorem C3_getIncomplete_returns_incomplete_fifo_witness :
    (∀ it ∈ [⟨1, [10], 1, 1, 5, 0, 0, 0, 0, 0⟩, ⟨1, [11], 2, 1, 3, 0, 0, 0, 0, 0⟩],
      TransferQueueItem.NodeID it = 1 ∧ TransferQueueItem.FinishedAt it = 0) ∧
    keysNodup [⟨1, [10], 1, 1, 5, 0, 0, 0, 0, 0⟩, ⟨1, [11], 2, 1, 3, 0, 0, 0, 0, 0⟩] ∧
    (∀ j ∈ (DBState.queue ⟨fun _ => none, [⟨2, [12], 1, 1, 1, 0, 0, 0, 0, 0⟩]⟩),
      TransferQueueItem.NodeID j ≠ 1) ∧
    (GetIncomplete (Enqueue ⟨fun _ => none, [⟨2, [12], 1, 1, 1, 0, 0, 0, 0, 0⟩]⟩
        [⟨1, [10], 1, 1, 5, 0, 0, 0, 0, 0⟩, ⟨1, [11], 2, 1, 3, 0, 0, 0, 0, 0⟩]) 1 2 0).Perm
      [⟨1, [10], 1, 1, 5, 0, 0, 0, 0, 0⟩, ⟨1, [11], 2, 1, 3, 0, 0, 0, 0, 0⟩] ∧
    (GetIncomplete (Enqueue ⟨fun _ => none, [⟨2, [12], 1, 1, 1, 0, 0, 0, 0, 0⟩]⟩
        [⟨1, [10], 1, 1, 5, 0, 0, 0, 0, 0⟩, ⟨1, [11], 2, 1, 3, 0, 0, 0, 0, 0⟩]) 1 2 0).Sorted
      queuedLE :=
  ⟨by decide, by decide, by decide,
   (C3_getIncomplete_returns_incomplete_fifo.2.2
      ⟨fun _ => none, [⟨2, [12], 1, 1, 1, 0, 0, 0, 0, 0⟩]⟩
      [⟨1, [10], 1, 1, 5, 0, 0, 0, 0, 0⟩, ⟨1, [11], 2, 1, 3, 0, 0, 0, 0, 0⟩] 1
      (by decide) (by decide) (by decide)).1,
   (C3_getIncomplete_returns_incomplete_fifo.2.2
      ⟨fun _ => none, [⟨2, [12], 1, 1, 1, 0, 0, 0, 0, 0⟩]⟩
      [⟨1, [10], 1, 1, 5, 0, 0, 0, 0, 0⟩, ⟨1, [11], 2, 1, 3, 0, 0, 0, 0, 0⟩] 1
      (by decide) (by decide) (by decide)).2⟩

namespace gracefulexit

theorem find?_update_self {q : List TransferQueueItem} {item : TransferQueueItem}
    (hk : hasKey q item.NodeID item.Path = true) :
    (q.map (fun i =>
        if i.NodeID = item.NodeID && i.Path = item.Path then item else i)).find?
      (fun i => i.NodeID = item.NodeID && i.Path = item.Path) = some item := by
  induction q with
  | nil => cases hk
  | cons c cq ih =>
    rw [List.map_cons]
    by_cases hc : (c.NodeID = item.NodeID && c.Path = item.Path) = true
    · rw [if_pos hc, List.find?_cons]
      have : (item.NodeID = item.NodeID && item.Path = item.Path) = true := by simp
      rw [this]
    · rw [if_neg hc, List.find?_cons]
      have hcf : (c.NodeID = item.NodeID && c.Path = item.Path) = false :=
        Bool.eq_false_iff.mpr hc
      rw [hcf]
      have hk' : hasKey cq item.NodeID item.Path = true := by
        rw [hasKey, List.any_cons, hcf, Bool.false_or] at hk
        exact hk
      exact ih hk'

theorem eq_of_mem_update_of_key {q : List TransferQueueItem}
    {item x : TransferQueueItem}
    (hx : x ∈ q.map (fun i =>
        if i.NodeID = item.NodeID && i.Path = item.Path then item else i))
    (hkey : x.NodeID = item.NodeID ∧ x.Path = item.Path) : x = item := by
  obtain ⟨i, hi, hfx⟩ := List.mem_map.mp hx
  by_cases hc : (i.NodeID = item.NodeID && i.Path = item.Path) = true
  · rw [if_pos hc] at hfx; exact hfx.symm
  · rw [if_neg hc] at hfx
    subst hfx
    exact absurd (by simp [hkey.1, hkey.2]) hc

end gracefulexit

/-- C6: setting a queue item's `FinishedAt` to a non-zero time and
persisting it via `UpdateTransferQueueItem` excludes that `(NodeID, Path)`
key from every subsequent `GetIncomplete` result for that node, while the
item itself remains retrievable by `GetTransferQueueItem`. -/
theorem C6_finish_removes_from_incomplete :
    ∀ (st st' : DBState) (item : TransferQueueItem),
      UpdateTransferQueueItem st item = .ok st' →
      item.FinishedAt ≠ 0 →
      (∀ (l o : Nat), ∀ x ∈ GetIncomplete st' item.NodeID l o,
          ¬(x.NodeID = item.NodeID ∧ x.Path = item.Path)) ∧
      GetTransferQueueItem st' item.NodeID item.Path = .ok item := by
  intro st st' item hupd hfin
  rw [UpdateTransferQueueItem] at hupd
  by_cases hk : hasKey st.queue item.NodeID item.Path = true
  · rw [if_pos hk] at hupd
    have hst' := Except.ok.inj hupd
    subst hst'
    constructor
    · intro l o x hx hkey
      have hsub := GetIncomplete_sublist_sorted
        { st with queue := st.queue.map (fun i =>
            if i.NodeID = item.NodeID && i.Path = item.Path then item else i) }
        item.NodeID l o
      have hmem := hsub.mem hx
      rw [List.mem_insertionSort] at hmem
      obtain ⟨hq, hpred⟩ := List.mem_filter.mp hmem
      rw [Bool.and_eq_true, decide_eq_true_eq, decide_eq_true_eq] at hpred
      have hxitem : x = item := eq_of_mem_update_of_key hq hkey
      rw [hxitem] at hpred
      exact hfin hpred.2
    · rw [GetTransferQueueItem]
      have := find?_update_self hk
      rw [this]
  · rw [if_neg hk] at hupd
    cases hupd

/-- Witness for C6 at a concrete input: a store holding one unfinished row
for node 1, updated to carry `FinishedAt = 9`. -/
theorem C6_finish_removes_from_incomplete_witness :
    UpdateTransferQueueItem ⟨fun _ => none, [⟨1, [10], 1, 1, 5, 0, 0, 0, 0, 0⟩]⟩
        ⟨1, [10], 1, 1, 5, 0, 0, 0, 0, 9⟩
      = .ok ⟨fun _ => none, [⟨1, [10], 1, 1, 5, 0, 0, 0, 0, 9⟩]⟩ ∧
    TransferQueueItem.FinishedAt ⟨1, [10], 1, 1, 5, 0, 0, 0, 0, 9⟩ ≠ 0 ∧
    (∀ x ∈ GetIncomplete ⟨fun _ => none, [⟨1, [10], 1, 1, 5, 0, 0, 0, 0, 9⟩]⟩ 1 10 0,
        ¬(TransferQueueItem.NodeID x = 1 ∧ TransferQueueItem.Path x = [10])) ∧
    GetTransferQueueItem ⟨fun _ => none, [⟨1, [10], 1, 1, 5, 0, 0, 0, 0, 9⟩]⟩ 1 [10]
      = .ok ⟨1, [10], 1, 1, 5, 0, 0, 0, 0, 9⟩ := by
  have happ := C6_finish_removes_from_incomplete
    ⟨fun _ => none, [⟨1, [10], 1, 1, 5, 0, 0, 0, 0, 0⟩]⟩
    ⟨fun _ => none, [⟨1, [10], 1, 1, 5, 0, 0, 0, 0, 9⟩]⟩
    ⟨1, [10], 1, 1, 5, 0, 0, 0, 0, 9⟩ rfl (by decide)
  exact ⟨rfl, by decide, happ.1 10 0, happ.2⟩

namespace gracefulexit

theorem find?_filter_eq_of_find?_eq {α : Type} {q : List α} {pred keep : α → Bool}
    {i : α} (h : q.find? pred = some i) (hki : keep i = true) :
    (q.filter keep).find? pred = some i := by
  induction q with
  | nil => cases h
  | cons c cq ih =>
    by_cases hpc : pred c = true
    · rw [List.find?_cons_of_pos cq hpc] at h
      have hci := Option.some.inj h
      subst hci
      rw [List.filter_cons_of_pos hki, List.find?_cons_of_pos _ hpc]
    · rw [List.find?_cons_of_neg cq hpc] at h
      by_cases hkc : keep c = true
      · rw [List.filter_cons_of_pos hkc, List.find?_cons_of_neg _ hpc]
        exact ih h
      · rw [List.filter_cons_of_neg hkc]
        exact ih h

theorem find?_filter_of_imp {α : Type} {q : List α} {pred keep : α → Bool}
    (himp : ∀ x, pred x = true → keep x = true) :
    (q.filter keep).find? pred = q.find? pred := by
  induction q with
  | nil => rfl
  | cons c cq ih =>
    by_cases hpc : pred c = true
    · rw [List.filter_cons_of_pos (himp c hpc), List.find?_cons_of_pos _ hpc,
        List.find?_cons_of_pos _ hpc]
    · by_cases hkc : keep c = true
      · rw [List.filter_cons_of_pos hkc, List.find?_cons_of_neg _ hpc,
          List.find?_cons_of_neg _ hpc]
        exact ih
      · rw [List.filter_cons_of_neg hkc, List.find?_cons_of_neg _ hpc]
        exact ih

theorem filter_filter_of_imp {α : Type} {q : List α} {pred keep : α → Bool}
    (himp : ∀ x, pred x = true → keep x = true) :
    (q.filter keep).filter pred = q.filter pred := by
  rw [List.filter_filter]
  apply List.filter_congr
  intro x _
  by_cases hpx : pred x = true
  · rw [hpx, himp x hpx]; rfl
  · rw [Bool.eq_false_iff.mpr hpx]; rfl

theorem key_unique {q : List TransferQueueItem} (hnodup : keysNodup q)
    {i j : TransferQueueItem} (hi : i ∈ q) (hj : j ∈ q)
    (hk : keyOf i = keyOf j) : i = j :=
  List.inj_on_of_nodup_map hnodup hi hj hk

end gracefulexit

/-- C7: `DeleteFinishedTransferQueueItems(nodeID)` removes exactly the
node's finished rows — an unfinished row reads back unchanged, a finished
row becomes NotFound — while `DeleteTransferQueueItems(nodeID)` removes
all the node's rows; neither operation disturbs any observation of a
different node. -/
theorem C7_bulk_delete_semantics :
    (∀ (st : DBState) (n : NodeID) (p : PiecePath) (i : TransferQueueItem),
      GetTransferQueueItem st n p = .ok i → i.FinishedAt = 0 →
      GetTransferQueueItem (DeleteFinishedTransferQueueItems st n) n p = .ok i) ∧
    (∀ (st : DBState) (n : NodeID) (p : PiecePath) (i : TransferQueueItem),
      keysNodup st.queue → GetTransferQueueItem st n p = .ok i → i.FinishedAt ≠ 0 →
      GetTransferQueueItem (DeleteFinishedTransferQueueItems st n) n p
        = .error .notFound) ∧
    (∀ (st : DBState) (n : NodeID) (p : PiecePath),
      GetTransferQueueItem (DeleteTransferQueueItems st n) n p = .error .notFound) ∧
    (∀ (st : DBState) (n : NodeID) (l o : Nat),
      GetIncomplete (DeleteTransferQueueItems st n) n l o = []) ∧
    (∀ (st : DBState) (n m : NodeID) (p : PiecePath) (l o : Nat), m ≠ n →
      GetTransferQueueItem (DeleteFinishedTransferQueueItems st n) m p
        = GetTransferQueueItem st m p ∧
      GetIncomplete (DeleteFinishedTransferQueueItems st n) m l o
        = GetIncomplete st m l o ∧
      GetTransferQueueItem (DeleteTransferQueueItems st n) m p
        = GetTransferQueueItem st m p ∧
      GetIncomplete (DeleteTransferQueueItems st n) m l o
        = GetIncomplete st m l o) := by
  refine ⟨?_, ?_, ?_, ?_, ?_⟩
  · intro st n p i hget hfin
    rw [GetTransferQueueItem] at hget
    rcases hfind : st.queue.find? (fun j => j.NodeID = n && j.Path = p) with _ | j
    · rw [hfind] at hget; cases hget
    · rw [hfind] at hget
      have hij := Except.ok.inj hget
      subst hij
      have hkeep : (!(j.NodeID = n && j.FinishedAt ≠ 0) : Bool) = true := by
        simp [hfin]
      rw [GetTransferQueueItem, DeleteFinishedTransferQueueItems,
        find?_filter_eq_of_find?_eq hfind hkeep]
  · intro st n p i hnodup hget hfin
    rw [GetTransferQueueItem] at hget
    rcases hfind : st.queue.find? (fun j => j.NodeID = n && j.Path = p) with _ | j
    · rw [hfind] at hget; cases hget
    · rw [hfind] at hget
      have hij := Except.ok.inj hget
      subst hij
      have hiq : j ∈ st.queue := List.mem_of_find?_eq_some hfind
      have hipred := List.find?_some hfind
      rw [Bool.and_eq_true, decide_eq_true_eq, decide_eq_true_eq] at hipred
      rw [GetTransferQueueItem, DeleteFinishedTransferQueueItems]
      have hnone : (st.queue.filter (fun j => !(j.NodeID = n && j.FinishedAt ≠ 0))).find?
          (fun j => j.NodeID = n && j.Path = p) = none := by
        rw [List.find?_eq_none]
        intro x hx hpx
        obtain ⟨hxq, hxkeep⟩ := List.mem_filter.mp hx
        rw [Bool.and_eq_true, decide_eq_true_eq, decide_eq_true_eq] at hpx
        have hxi : x = j := key_unique hnodup hxq hiq (by
          simp [keyOf, hpx.1, hpx.2, hipred.1, hipred.2])
        subst hxi
        simp [hipred.1, hfin] at hxkeep
      rw [hnone]
  · intro st n p
    rw [GetTransferQueueItem, DeleteTransferQueueItems]
    have hnone : (st.queue.filter (fun j => !(j.NodeID = n : Bool))).find?
        (fun j => j.NodeID = n && j.Path = p) = none := by
      rw [List.find?_eq_none]
      intro x hx hpx
      obtain ⟨hxq, hxkeep⟩ := List.mem_filter.mp hx
      rw [Bool.and_eq_true, decide_eq_true_eq] at hpx
      simp [hpx.1] at hxkeep
    rw [hnone]
  · intro st n l o
    rw [GetIncomplete, DeleteTransferQueueItems]
    have hnil : ((st.queue.filter (fun j => !(j.NodeID = n : Bool))).filter
        (fun i => i.NodeID = n && i.FinishedAt = 0)) = [] := by
      rw [List.filter_eq_nil_iff]
      intro x hx hpx
      obtain ⟨hxq, hxkeep⟩ := List.mem_filter.mp hx
      rw [Bool.and_eq_true, decide_eq_true_eq] at hpx
      simp [hpx.1] at hxkeep
    rw [hnil]
    simp
  · intro st n m p l o hmn
    have himpKey : ∀ keepB : TransferQueueItem → Bool,
        (∀ x : TransferQueueItem, x.NodeID ≠ n → keepB x = true) →
        ∀ x : TransferQueueItem, (x.NodeID = m && x.Path = p) = true → keepB x = true := by
      intro keepB hkeep x hpx
      rw [Bool.and_eq_true, decide_eq_true_eq] at hpx
      exact hkeep x (by rw [hpx.1]; exact hmn)
    have himpInc : ∀ keepB : TransferQueueItem → Bool,
        (∀ x : TransferQueueItem, x.NodeID ≠ n → keepB x = true) →
        ∀ x : TransferQueueItem, (x.NodeID = m && x.FinishedAt = 0) = true →
          keepB x = true := by
      intro keepB hkeep x hpx
      rw [Bool.and_eq_true, decide_eq_true_eq] at hpx
      exact hkeep x (by rw [hpx.1]; exact hmn)
    have hkeepFin : ∀ x : TransferQueueItem, x.NodeID ≠ n →
        (!(x.NodeID = n && x.FinishedAt ≠ 0) : Bool) = true := by
      intro x hx; simp [hx]
    have hkeepAll : ∀ x : TransferQueueItem, x.NodeID ≠ n →
        (!(x.NodeID = n : Bool) : Bool) = true := by
      intro x hx; simp [hx]
    refine ⟨?_, ?_, ?_, ?_⟩
    · rw [GetTransferQueueItem, GetTransferQueueItem, DeleteFinishedTransferQueueItems,
        find?_filter_of_imp (himpKey _ hkeepFin)]
    · rw [GetIncomplete, GetIncomplete, DeleteFinishedTransferQueueItems,
        filter_filter_of_imp (himpInc _ hkeepFin)]
    · rw [GetTransferQueueItem, GetTransferQueueItem, DeleteTransferQueueItems,
        find?_filter_of_imp (himpKey _ hkeepAll)]
    · rw [GetIncomplete, GetIncomplete, DeleteTransferQueueItems,
        filter_filter_of_imp (himpInc _ hkeepAll)]

/-- Witness for C7 at a concrete input: node 1 holds one finished and one
unfinished row, node 2 holds one row; the clauses are applied at these
rows. -/
theorem C7_bulk_delete_semantics_witness :
    GetTransferQueueItem
        ⟨fun _ => none, [⟨1, [10], 1, 1, 5, 0, 0, 0, 0, 9⟩,
          ⟨1, [11], 2, 1, 6, 0, 0, 0, 0, 0⟩, ⟨2, [12], 3, 1, 7, 0, 0, 0, 0, 0⟩]⟩ 1 [11]
      = .ok ⟨1, [11], 2, 1, 6, 0, 0, 0, 0, 0⟩ ∧
    GetTransferQueueItem (DeleteFinishedTransferQueueItems
        ⟨fun _ => none, [⟨1, [10], 1, 1, 5, 0, 0, 0, 0, 9⟩,
          ⟨1, [11], 2, 1, 6, 0, 0, 0, 0, 0⟩, ⟨2, [12], 3, 1, 7, 0, 0, 0, 0, 0⟩]⟩ 1) 1 [11]
      = .ok ⟨1, [11], 2, 1, 6, 0, 0, 0, 0, 0⟩ ∧
    keysNodup [⟨1, [10], 1, 1, 5, 0, 0, 0, 0, 9⟩,
      ⟨1, [11], 2, 1, 6, 0, 0, 0, 0, 0⟩, ⟨2, [12], 3, 1, 7, 0, 0, 0, 0, 0⟩] ∧
    GetTransferQueueItem (DeleteFinishedTransferQueueItems
        ⟨fun _ => none, [⟨1, [10], 1, 1, 5, 0, 0, 0, 0, 9⟩,
          ⟨1, [11], 2, 1, 6, 0, 0, 0, 0, 0⟩, ⟨2, [12], 3, 1, 7, 0, 0, 0, 0, 0⟩]⟩ 1) 1 [10]
      = .error .notFound ∧
    GetTransferQueueItem (DeleteTransferQueueItems
        ⟨fun _ => none, [⟨1, [10], 1, 1, 5, 0, 0, 0, 0, 9⟩,
          ⟨1, [11], 2, 1, 6, 0, 0, 0, 0, 0⟩, ⟨2, [12], 3, 1, 7, 0, 0, 0, 0, 0⟩]⟩ 2) 2 [12]
      = .error .notFound ∧
    GetIncomplete (DeleteTransferQueueItems
        ⟨fun _ => none, [⟨1, [10], 1, 1, 5, 0, 0, 0, 0, 9⟩,
          ⟨1, [11], 2, 1, 6, 0, 0, 0, 0, 0⟩, ⟨2, [12], 3, 1, 7, 0, 0, 0, 0, 0⟩]⟩ 2) 2 10 0
      = [] ∧
    GetTransferQueueItem (DeleteFinishedTransferQueueItems
        ⟨fun _ => none, [⟨1, [10], 1, 1, 5, 0, 0, 0, 0, 9⟩,
          ⟨1, [11], 2, 1, 6, 0, 0, 0, 0, 0⟩, ⟨2, [12], 3, 1, 7, 0, 0, 0, 0, 0⟩]⟩ 1) 2 [12]
      = GetTransferQueueItem
        ⟨fun _ => none, [⟨1, [10], 1, 1, 5, 0, 0, 0, 0, 9⟩,
          ⟨1, [11], 2, 1, 6, 0, 0, 0, 0, 0⟩, ⟨2, [12], 3, 1, 7, 0, 0, 0, 0, 0⟩]⟩ 2 [12] :=
  ⟨rfl,
   C7_bulk_delete_semantics.1
     ⟨fun _ => none, [⟨1, [10], 1, 1, 5, 0, 0, 0, 0, 9⟩,
       ⟨1, [11], 2, 1, 6, 0, 0, 0, 0, 0⟩, ⟨2, [12], 3, 1, 7, 0, 0, 0, 0, 0⟩]⟩ 1 [11]
     ⟨1, [11], 2, 1, 6, 0, 0, 0, 0, 0⟩ rfl rfl,
   by decide,
   C7_bulk_delete_semantics.2.1
     ⟨fun _ => none, [⟨1, [10], 1, 1, 5, 0, 0, 0, 0, 9⟩,
       ⟨1, [11], 2, 1, 6, 0, 0, 0, 0, 0⟩, ⟨2, [12], 3, 1, 7, 0, 0, 0, 0, 0⟩]⟩ 1 [10]
     ⟨1, [10], 1, 1, 5, 0, 0, 0, 0, 9⟩ (by decide) rfl (by decide),
   C7_bulk_delete_semantics.2.2.1
     ⟨fun _ => none, [⟨1, [10], 1, 1, 5, 0, 0, 0, 0, 9⟩,
       ⟨1, [11], 2, 1, 6, 0, 0, 0, 0, 0⟩, ⟨2, [12], 3, 1, 7, 0, 0, 0, 0, 0⟩]⟩ 2 [12],
   C7_bulk_delete_semantics.2.2.2.1
     ⟨fun _ => none, [⟨1, [10], 1, 1, 5, 0, 0, 0, 0, 9⟩,
       ⟨1, [11], 2, 1, 6, 0, 0, 0, 0, 0⟩, ⟨2, [12], 3, 1, 7, 0, 0, 0, 0, 0⟩]⟩ 2 10 0,
   (C7_bulk_delete_semantics.2.2.2.2
     ⟨fun _ => none, [⟨1, [10], 1, 1, 5, 0, 0, 0, 0, 9⟩,
       ⟨1, [11], 2, 1, 6, 0, 0, 0, 0, 0⟩, ⟨2, [12], 3, 1, 7, 0, 0, 0, 0, 0⟩]⟩ 1 2 [12] 10 0
     (by decide)).1⟩

/-- C8: lookups against absent state fail with NotFound:
`GetTransferQueueItem` when no row with the `(NodeID, Path)` key exists —
in particular right after that row was deleted — `GetProgress` when the
node has no progress record, and `UpdateTransferQueueItem` when the keyed
row no longer exists. -/
theorem C8_absent_state_notfound :
    (∀ (st : DBState) (n : NodeID) (p : PiecePath),
      hasKey st.queue n p = false →
      GetTransferQueueItem st n p = .error .notFound) ∧
    (∀ (st : DBState) (n : NodeID) (p : PiecePath),
      GetTransferQueueItem (DeleteTransferQueueItem st n p) n p
        = .error .notFound) ∧
    (∀ (st : DBState) (n : NodeID),
      st.progress n = none → GetProgress st n = .error .notFound) ∧
    (∀ (st : DBState) (item : TransferQueueItem),
      hasKey st.queue item.NodeID item.Path = false →
      UpdateTransferQueueItem st item = .error .notFound) := by
  refine ⟨?_, ?_, ?_, ?_⟩
  · intro st n p h
    have hnone : st.queue.find? (fun i => i.NodeID = n && i.Path = p) = none := by
      rw [List.find?_eq_none]
      intro x hx hpx
      rw [hasKey] at h
      have hany : st.queue.any (fun i => i.NodeID = n && i.Path = p) = true :=
        List.any_eq_true.mpr ⟨x, hx, hpx⟩
      rw [h] at hany
      cases hany
    rw [GetTransferQueueItem, hnone]
  · intro st n p
    rw [GetTransferQueueItem, DeleteTransferQueueItem]
    have hnone : (st.queue.filter (fun i => !(i.NodeID = n && i.Path = p))).find?
        (fun i => i.NodeID = n && i.Path = p) = none := by
      rw [List.find?_eq_none]
      intro x hx hpx
      obtain ⟨hxq, hxkeep⟩ := List.mem_filter.mp hx
      rw [hpx] at hxkeep
      cases hxkeep
    rw [hnone]
  · intro st n h
    rw [GetProgress, h]
  · intro st item h
    rw [UpdateTransferQueueItem, if_neg (by rw [h]; exact Bool.false_ne_true)]

/-- Witness for C8 at a concrete input: a store holding a single row of
node 1 at path `[10]`; every absent-state lookup fails with NotFound. -/
theorem C8_absent_state_notfound_witness :
    hasKey [(⟨1, [10], 1, 1, 5, 0, 0, 0, 0, 0⟩ : TransferQueueItem)] 1 [11] = false ∧
    GetTransferQueueItem ⟨fun _ => none, [⟨1, [10], 1, 1, 5, 0, 0, 0, 0, 0⟩]⟩ 1 [11]
      = .error .notFound ∧
    GetTransferQueueItem (DeleteTransferQueueItem
        ⟨fun _ => none, [⟨1, [10], 1, 1, 5, 0, 0, 0, 0, 0⟩]⟩ 1 [10]) 1 [10]
      = .error .notFound ∧
    GetProgress ⟨fun _ => none, [⟨1, [10], 1, 1, 5, 0, 0, 0, 0, 0⟩]⟩ 3
      = .error .notFound ∧
    UpdateTransferQueueItem ⟨fun _ => none, [⟨1, [10], 1, 1, 5, 0, 0, 0, 0, 0⟩]⟩
        ⟨1, [11], 1, 1, 5, 0, 0, 0, 0, 0⟩
      = .error .notFound :=
  ⟨by decide,
   C8_absent_state_notfound.1 ⟨fun _ => none, [⟨1, [10], 1, 1, 5, 0, 0, 0, 0, 0⟩]⟩
     1 [11] (by decide),
   C8_absent_state_notfound.2.1 ⟨fun _ => none, [⟨1, [10], 1, 1, 5, 0, 0, 0, 0, 0⟩]⟩
     1 [10],
   C8_absent_state_notfound.2.2.1 ⟨fun _ => none, [⟨1, [10], 1, 1, 5, 0, 0, 0, 0, 0⟩]⟩
     3 rfl,
   C8_absent_state_notfound.2.2.2 ⟨fun _ => none, [⟨1, [10], 1, 1, 5, 0, 0, 0, 0, 0⟩]⟩
     ⟨1, [11], 1, 1, 5, 0, 0, 0, 0, 0⟩ (by decide)⟩

/-- C5: the node-side exit state machine only moves forward:
`InitiateGracefulExit` fails whenever the satellite's record is already in
a non-`Normal` state (in particular `Exiting`); `CompleteGracefulExit`
fails whenever the satellite is not currently `Exiting` (in particular
`Normal`); and after a successful `CompleteGracefulExit` the record's
status is `ExitSucceeded` or `ExitFailed` and `FinishedAt` is set. -/
theorem C5_exit_state_machine_forward_only :
    (∀ (st : NodeDB) (sat : NodeID) (t : Time) (d : Int),
      statusOf st sat ≠ satellites.Normal →
      InitiateGracefulExit st sat t d = .error .invalidTransition) ∧
    (∀ (st : NodeDB) (sat : NodeID) (t : Time) (s : Status) (r : List Nat),
      statusOf st sat ≠ Exiting →
      CompleteGracefulExit st sat t s r = .error .invalidTransition) ∧
    (∀ (st st' : NodeDB) (sat : NodeID) (t : Time) (s : Status) (r : List Nat),
      CompleteGracefulExit st sat t s r = .ok st' →
      ∃ rec : ExitRecord, st'.records sat = some rec ∧
        (rec.Status = ExitSucceeded ∨ rec.Status = ExitFailed) ∧
        rec.FinishedAt = some t) := by
  refine ⟨?_, ?_, ?_⟩
  · intro st sat t d h
    rw [InitiateGracefulExit, if_neg h]
  · intro st sat t s r h
    rcases hrec : st.records sat with _ | r0
    · simp only [CompleteGracefulExit, hrec]
    · rw [statusOf, hrec] at h
      simp only [CompleteGracefulExit, hrec]
      rw [if_neg h]
  · intro st st' sat t s r hcomp
    rcases hrec : st.records sat with _ | r0
    · simp only [CompleteGracefulExit, hrec] at hcomp
      cases hcomp
    · simp only [CompleteGracefulExit, hrec] at hcomp
      by_cases h1 : r0.Status = Exiting
      · rw [if_pos h1] at hcomp
        by_cases h2 : s = ExitSucceeded ∨ s = ExitFailed
        · rw [if_pos h2] at hcomp
          have hst' := Except.ok.inj hcomp
          subst hst'
          refine ⟨{ r0 with Status := s, FinishedAt := some t, CompletionReceipt := r }, ?_, h2, rfl⟩
          simp
        · rw [if_neg h2] at hcomp
          cases hcomp
      · rw [if_neg h1] at hcomp
        cases hcomp

/-- Witness for C5 at a concrete input: satellite 7 is `Exiting`, so a
second initiate fails; on the empty store (satellite `Normal`) a complete
fails; completing the `Exiting` satellite with `ExitSucceeded` yields a
terminal record with `FinishedAt` set. -/
theorem C5_exit_state_machine_forward_only_witness :
    statusOf ⟨fun _ => some ⟨7, Exiting, some 1, none, 100, 0, []⟩⟩ 7 ≠ satellites.Normal ∧
    InitiateGracefulExit ⟨fun _ => some ⟨7, Exiting, some 1, none, 100, 0, []⟩⟩ 7 2 50
      = .error .invalidTransition ∧
    statusOf NodeDB.empty 7 ≠ Exiting ∧
    CompleteGracefulExit NodeDB.empty 7 5 ExitSucceeded [1]
      = .error .invalidTransition ∧
    (∃ rec : ExitRecord,
      NodeDB.records ⟨fun x => if x = 7
          then some ⟨7, ExitSucceeded, some 1, some 5, 100, 0, [1]⟩
          else some ⟨7, Exiting, some 1, none, 100, 0, []⟩⟩ 7 = some rec ∧
      (rec.Status = ExitSucceeded ∨ rec.Status = ExitFailed) ∧
      rec.FinishedAt = some 5) :=
  ⟨by decide,
   C5_exit_state_machine_forward_only.1
     ⟨fun _ => some ⟨7, Exiting, some 1, none, 100, 0, []⟩⟩ 7 2 50 (by decide),
   by decide,
   C5_exit_state_machine_forward_only.2.1 NodeDB.empty 7 5 ExitSucceeded [1] (by decide),
   C5_exit_state_machine_forward_only.2.2
     ⟨fun _ => some ⟨7, Exiting, some 1, none, 100, 0, []⟩⟩
     ⟨fun x => if x = 7 then some ⟨7, ExitSucceeded, some 1, some 5, 100, 0, [1]⟩
        else some ⟨7, Exiting, some 1, none, 100, 0, []⟩⟩ 7 5 ExitSucceeded [1] rfl⟩

/-- C9: node-side `Status` is a bare alias of the integers, not a distinct
enumerated type — its zero value is the sentinel `Unexpected`, the legal
states are the consecutive constants `Normal = 1`, `Exiting = 2`,
`ExitSucceeded = 3`, `ExitFailed = 4`, every integer is accepted as a
`Status` — and `CompleteGracefulExit` itself rejects status values
outside `{ExitSucceeded, ExitFailed}`. -/
theorem C9_status_is_bare_int_alias :
    (Status = Int) ∧
    ((default : Status) = Unexpected ∧ Unexpected = 0) ∧
    (satellites.Normal = 1 ∧ Exiting = 2 ∧ ExitSucceeded = 3 ∧ ExitFailed = 4) ∧
    (∀ z : Int, ∃ s : Status, s = z) ∧
    (∀ (st : NodeDB) (sat : NodeID) (t : Time) (s : Status) (r : List Nat),
      s ≠ ExitSucceeded → s ≠ ExitFailed →
      CompleteGracefulExit st sat t s r = .error .invalidTransition) := by
  refine ⟨rfl, ⟨rfl, rfl⟩, ⟨rfl, rfl, rfl, rfl⟩, fun z => ⟨z, rfl⟩, ?_⟩
  intro st sat t s r h3 h4
  rcases hrec : st.records sat with _ | r0
  · simp only [CompleteGracefulExit, hrec]
  · simp only [CompleteGracefulExit, hrec]
    by_cases h1 : r0.Status = Exiting
    · rw [if_pos h1, if_neg (fun hor => hor.elim h3 h4)]
    · rw [if_neg h1]

/-- Witness for C9 at a concrete input: completing with the out-of-range
status value `7` fails even though satellite 7 is `Exiting`. -/
theorem C9_status_is_bare_int_alias_witness :
    ((7 : Status) ≠ ExitSucceeded) ∧ ((7 : Status) ≠ ExitFailed) ∧
    CompleteGracefulExit ⟨fun _ => some ⟨7, Exiting, some 1, none, 100, 0, []⟩⟩
        7 5 (7 : Status) [1] = .error .invalidTransition :=
  ⟨by decide, by decide,
   C9_status_is_bare_int_alias.2.2.2.2
     ⟨fun _ => some ⟨7, Exiting, some 1, none, 100, 0, []⟩⟩ 7 5 (7 : Status) [1]
     (by decide) (by decide)⟩

/-- C4: the claim says every `ExitProcess` record carries a `Status` field
with the five enumerated values, with `FinishedAt`/`InitiatedAt` tied to
it.  The source struct declares no such field: an `ExitProcess` is
entirely determined by `SatelliteID`, `InitiatedAt`, `FinishedAt`,
`StartingDiskUsage`, `BytesDeleted` and `CompletionReceipt`, so two
records of exits that terminated with different statuses are equal
whenever these six fields agree — no status is carried. -/
theorem C4_exitprocess_carries_no_status_field :
    ∀ (s s' : NodeID) (i i' f f' : Option Time) (d d' b b' : Int)
      (c c' : List Nat),
      (ExitProcess.mk s i f d b c = ExitProcess.mk s' i' f' d' b' c') ↔
        (s = s' ∧ i = i' ∧ f = f' ∧ d = d' ∧ b = b' ∧ c = c') := by
  intro s s' i i' f f' d d' b b' c c'
  exact ExitProcess.mk.injEq s i f d b c s' i' f' d' b' c' ▸ Iff.rfl

/-- C10: for the contact service, `UpdateSelf` with a nil capacity leaves
the stored node dossier completely unchanged; with a non-nil capacity it
replaces only the `Capacity` field, leaving every other field unchanged;
and `Local` returns the owned dossier by value — reading it performs no
mutation of the service. -/
theorem C10_contact_updateself_frame :
    ∀ (κ ρ : Type) (s : Service κ ρ) (c : κ),
      Service.UpdateSelf s none = s ∧
      (Service.UpdateSelf s (some c)).self.Capacity = c ∧
      (Service.UpdateSelf s (some c)).self.Rest = s.self.Rest ∧
      Service.Local s = s.self :=
  fun _ _ _ _ => ⟨rfl, rfl, rfl, rfl⟩
